import Mathlib

/-!
Verification of the three-stage feedback pipeline of
`src/bench/debug/python/04-concurrency/stages.py`.

The three stage classes (`Stage1`, `Stage2`, `Stage3`) are translated from the
source into a small-step operational semantics: each stage is an independently
scheduled unit of concurrency, and a scheduler step runs one atomic action of
one stage.  Blocking queue operations are modelled as steps that are disabled
(return `none`) while their guard fails.

The queue manager and the `run_pipeline` harness are not part of the sources;
only `stages.py` is.  The channels are therefore modelled from the spec:
three directional capacity-bounded FIFO channels (producer to transform,
transform to consumer, and the feedback channel), with blocking enqueue when a
channel holds `cap` elements, blocking dequeue when empty, and a non-blocking
emptiness check on the feedback channel (`queue.empty()` in the source).
All three channels share the single `channel_capacity` parameter of
`run_pipeline`.

Ghost fields (`ch1_log`, `ch2_log`, `fb_log`, `s1_log`) record the history of
enqueues; they never influence the behaviour of the steps.
-/

/-- FeedbackRecord, the dict built by `Stage2.run` (stages.py lines 50-54):
`{"from_item": item["id"], "suggestion": "increase_rate", "metric": self.processed}`.
The spec calls the first field `source_item_id`. -/
structure FeedbackRecord where
  from_item : Nat
  suggestion : String
  metric : Nat
deriving DecidableEq, Repr

/-- WorkItem, the dict built by `Stage1.run` (stages.py line 15):
`{"id": i, "value": i * 10, "adjustments": []}`.  A Python dict has no
`processed` key until `Stage2.run` assigns `item["processed"] = True`
(line 46); the key's absence is modelled by `processed = none`. -/
structure WorkItem where
  id : Nat
  value : Nat
  adjustments : List FeedbackRecord
  processed : Option Bool
deriving DecidableEq, Repr

/-- Program locations of `Stage1.run` (stages.py lines 13-28). -/
inductive S1PC
  | loopHead
  | drainCheck
  | drainGet
  | putItem
  | setDone
  | putSentinel
  | stopped
deriving DecidableEq, Repr

/-- Program locations of `Stage2.run` (stages.py lines 38-61). -/
inductive S2PC
  | getItem
  | putFeedback
  | putItem2
  | setDone
  | putSentinel
  | stopped
deriving DecidableEq, Repr

/-- Program locations of `Stage3.run` (stages.py lines 71-76). -/
inductive S3PC
  | getItem
  | stopped
deriving DecidableEq, Repr

/-- Global state of the pipeline: the local state of the three stage objects,
the three channels (front of list = next element dequeued), the two advisory
flags of the queue manager, and append-only ghost logs of every enqueue. -/
structure PState where
  s1pc : S1PC
  s1i : Nat
  s1item : Option WorkItem
  feedback_count : Nat
  s2pc : S2PC
  s2item : Option WorkItem
  processed : Nat
  s3pc : S3PC
  results : List WorkItem
  ch1 : List (Option WorkItem)
  ch2 : List (Option WorkItem)
  fbch : List FeedbackRecord
  done_producing : Bool
  done_processing : Bool
  ch1_log : List (Option WorkItem)
  ch2_log : List (Option WorkItem)
  fb_log : List FeedbackRecord
  s1_log : List WorkItem
deriving DecidableEq, Repr

/-- Initial state: all stages at their loop heads, channels empty, counters 0. -/
def init : PState :=
  { s1pc := .loopHead, s1i := 0, s1item := none, feedback_count := 0,
    s2pc := .getItem, s2item := none, processed := 0,
    s3pc := .getItem, results := [],
    ch1 := [], ch2 := [], fbch := [],
    done_producing := false, done_processing := false,
    ch1_log := [], ch2_log := [], fb_log := [], s1_log := [] }

/-- The transformed item produced by `Stage2.run` (stages.py lines 44-46):
`item["value"] = item["value"] * 2 + 1; item["processed"] = True`. -/
def itemB (it : WorkItem) : WorkItem :=
  { it with value := it.value * 2 + 1, processed := some true }

/-- Modelled from the spec: the Channel Set and the `run_pipeline` harness are
code of this repository that is not under src/ (only `stages.py` is). Per the
spec (sections 2, 4.1 and 6) each of the three channels is a directional
capacity-bounded FIFO, all three sharing the single `channel_capacity`
argument of `run_pipeline`; enqueue onto a channel already holding `cap`
elements blocks, dequeue from an empty channel blocks. `chFree cap ch` holds
exactly when an enqueue onto `ch` is enabled. -/
def chFree {α : Type} (cap : Nat) (ch : List α) : Bool :=
  ch.length < cap

/-- One atomic action of `Stage1.run` (stages.py lines 13-28). `n` is
`num_items`; `cap` is the channel capacity (modelled from the spec, see the
module comment). Returns `none` when Stage 1 is blocked or stopped. -/
def stepA (n cap : Nat) (s : PState) : Option PState :=
  match s.s1pc with
  | .loopHead =>
      if s.s1i < n then
        some { s with s1item := some ⟨s.s1i, s.s1i * 10, [], none⟩,
                      s1pc := .drainCheck }
      else
        some { s with s1pc := .setDone }
  | .drainCheck =>
      if s.fbch.isEmpty then some { s with s1pc := .putItem }
      else some { s with s1pc := .drainGet }
  | .drainGet =>
      match s.fbch, s.s1item with
      | fb :: rest, some it =>
          some { s with fbch := rest, feedback_count := s.feedback_count + 1,
                        s1item := some { it with adjustments := it.adjustments ++ [fb] },
                        s1pc := .drainCheck }
      | _, _ => none
  | .putItem =>
      match s.s1item with
      | some it =>
          if chFree cap s.ch1 then
            some { s with ch1 := s.ch1 ++ [some it], ch1_log := s.ch1_log ++ [some it],
                          s1_log := s.s1_log ++ [it], s1item := none,
                          s1i := s.s1i + 1, s1pc := .loopHead }
          else none
      | none => none
  | .setDone => some { s with done_producing := true, s1pc := .putSentinel }
  | .putSentinel =>
      if chFree cap s.ch1 then
        some { s with ch1 := s.ch1 ++ [none], ch1_log := s.ch1_log ++ [none],
                      s1pc := .stopped }
      else none
  | .stopped => none

/-- One atomic action of `Stage2.run` (stages.py lines 38-61).  The blocking
dequeue, the item transformation and the counter increment (lines 39-47) are
one atomic step; the feedback enqueue (line 55) and the forward enqueue
(line 58) are separate steps, in that order. -/
def stepB (cap : Nat) (s : PState) : Option PState :=
  match s.s2pc with
  | .getItem =>
      match s.ch1 with
      | [] => none
      | none :: rest => some { s with ch1 := rest, s2pc := .setDone }
      | some it :: rest =>
          some { s with ch1 := rest, s2item := some (itemB it),
                        processed := s.processed + 1, s2pc := .putFeedback }
  | .putFeedback =>
      match s.s2item with
      | some it =>
          if chFree cap s.fbch then
            some { s with fbch := s.fbch ++ [⟨it.id, "increase_rate", s.processed⟩],
                          fb_log := s.fb_log ++ [⟨it.id, "increase_rate", s.processed⟩],
                          s2pc := .putItem2 }
          else none
      | none => none
  | .putItem2 =>
      match s.s2item with
      | some it =>
          if chFree cap s.ch2 then
            some { s with ch2 := s.ch2 ++ [some it], ch2_log := s.ch2_log ++ [some it],
                          s2item := none, s2pc := .getItem }
          else none
      | none => none
  | .setDone => some { s with done_processing := true, s2pc := .putSentinel }
  | .putSentinel =>
      if chFree cap s.ch2 then
        some { s with ch2 := s.ch2 ++ [none], ch2_log := s.ch2_log ++ [none],
                      s2pc := .stopped }
      else none
  | .stopped => none

/-- One atomic action of `Stage3.run` (stages.py lines 71-76). -/
def stepC (s : PState) : Option PState :=
  match s.s3pc with
  | .getItem =>
      match s.ch2 with
      | [] => none
      | none :: rest => some { s with ch2 := rest, s3pc := .stopped }
      | some it :: rest => some { s with ch2 := rest, results := s.results ++ [it] }
  | .stopped => none

/-- Scheduler labels: which stage takes the next atomic step. -/
inductive Lab
  | a
  | b
  | c
deriving DecidableEq, Repr

/-- Step of the stage named by the label. -/
def stepOf (n cap : Nat) : Lab → PState → Option PState
  | .a => stepA n cap
  | .b => stepB cap
  | .c => stepC

/-- Modelled from the spec: the three stages run as independently scheduled
units of concurrency (section 5). One scheduler step runs one enabled atomic
action of one stage. -/
def Step (n cap : Nat) (s t : PState) : Prop :=
  ∃ l, stepOf n cap l s = some t

/-- States reachable from the initial state under some interleaving. -/
def Reachable (n cap : Nat) (s : PState) : Prop :=
  Relation.ReflTransGen (Step n cap) init s

/-- Run a finite schedule of labels; `none` if a scheduled step is disabled. -/
def runLabels (n cap : Nat) : List Lab → PState → Option PState
  | [], s => some s
  | l :: ls, s => (stepOf n cap l s).bind (runLabels n cap ls)

/-- No stage has an enabled step: the pipeline can make no further progress. -/
def stuck (n cap : Nat) (s : PState) : Prop :=
  stepA n cap s = none ∧ stepB cap s = none ∧ stepC s = none

/-- Modelled from the spec: `run_pipeline` (section 6) starts the three
stages, waits for all of them to reach STOPPED and returns Stage C's result
sequence — `allStopped` is that join condition, and `s.results` is the
returned sequence. -/
def allStopped (s : PState) : Prop :=
  s.s1pc = .stopped ∧ s.s2pc = .stopped ∧ s.s3pc = .stopped

instance : DecidablePred (allStopped) := fun s => by
  unfold allStopped; infer_instance

instance (n cap : Nat) : DecidablePred (stuck n cap) := fun s => by
  unfold stuck; infer_instance

/-- Stage 2 has already consumed the terminal sentinel from channel 1
(a function of Stage 2's program counter). -/
def bTookSentinel : S2PC → Bool
  | .setDone | .putSentinel | .stopped => true
  | _ => false

/-- Number of feedback records Stage 2 has enqueued so far, as a function of
its program counter and its `processed` counter: one per consumed item, except
that at `putFeedback` the record of the current item is pending. -/
def fbSent : S2PC → Nat → Nat
  | .putFeedback, processed => processed - 1
  | _, processed => processed

/-- Number of transformed items Stage 2 has forwarded on channel 2 so far. -/
def fwdSent : S2PC → Nat → Nat
  | .putFeedback, processed | .putItem2, processed => processed - 1
  | _, processed => processed

/-- Length of the adjustments list of the item under construction, if any. -/
def itemAdjLen : Option WorkItem → Nat
  | some it => it.adjustments.length
  | none => 0

/-- The k-th feedback record (0-indexed) ever enqueued by Stage 2: it reports
the k-th consumed item (whose id is k) and carries metric k+1. -/
def mkFb (k : Nat) : FeedbackRecord :=
  ⟨k, "increase_rate", k + 1⟩

/-- The inductive invariant of the pipeline, preserved by every step of every
stage from the initial state. -/
structure PInv (n : Nat) (s : PState) : Prop where
  hlen : s.s1_log.length = s.s1i
  hids : ∀ k, ∀ hk : k < s.s1_log.length, (s.s1_log.get ⟨k, hk⟩).id = k
  hlog : ∀ it ∈ s.s1_log, it.value = it.id * 10 ∧ it.processed = none ∧
    ∀ fb ∈ it.adjustments, fb.from_item < it.id
  hitem : ∀ it, s.s1item = some it → it.id = s.s1i ∧ it.value = s.s1i * 10 ∧
    it.processed = none ∧ s.s1i < n ∧ ∀ fb ∈ it.adjustments, fb.from_item < it.id
  hitem_pc : s.s1item.isSome = true ↔
    (s.s1pc = .drainCheck ∨ s.s1pc = .drainGet ∨ s.s1pc = .putItem)
  hi_le : s.s1i ≤ n
  hdone_pc : (s.s1pc = .setDone ∨ s.s1pc = .putSentinel ∨ s.s1pc = .stopped) →
    s.s1i = n
  hch1_log : s.ch1_log = s.s1_log.map some ++
    (if s.s1pc = .stopped then [none] else [])
  hch1 : s.ch1 = (s.s1_log.drop s.processed).map some ++
    (if s.s1pc = .stopped ∧ bTookSentinel s.s2pc = false then [none] else [])
  hdrain : s.s1pc = .drainGet → s.fbch ≠ []
  hproc_le : s.processed ≤ s.s1_log.length
  htaken : bTookSentinel s.s2pc = true → s.processed = s.s1_log.length ∧
    s.s1pc = .stopped
  hs2item : ∀ it, s.s2item = some it → ∃ hp : s.processed - 1 < s.s1_log.length,
    it = itemB (s.s1_log.get ⟨s.processed - 1, hp⟩) ∧ 1 ≤ s.processed
  hs2item_pc : s.s2item.isSome = true ↔
    (s.s2pc = .putFeedback ∨ s.s2pc = .putItem2)
  hfb_log : s.fb_log = (List.range (fbSent s.s2pc s.processed)).map mkFb
  hfbch : s.fbch = s.fb_log.drop s.feedback_count
  hfc_le : s.feedback_count ≤ s.fb_log.length
  hfc_sum : s.feedback_count =
    (s.s1_log.map fun it => it.adjustments.length).sum + itemAdjLen s.s1item
  hch2_log : s.ch2_log =
    (s.s1_log.take (fwdSent s.s2pc s.processed)).map (fun it => some (itemB it)) ++
    (if s.s2pc = .stopped then [none] else [])
  hres : s.results = (s.s1_log.take s.results.length).map itemB
  hres_le : s.results.length ≤ fwdSent s.s2pc s.processed
  hch2 : s.ch2 = ((s.s1_log.take (fwdSent s.s2pc s.processed)).drop s.results.length).map
      (fun it => some (itemB it)) ++
    (if s.s2pc = .stopped ∧ ¬ s.s3pc = .stopped then [none] else [])
  hc_stop : s.s3pc = .stopped → s.s2pc = .stopped ∧
    s.results.length = fwdSent s.s2pc s.processed

/-- Weight of Stage 1's remaining work inside one loop iteration. -/
def wS1 : S1PC → Nat
  | .loopHead => 5
  | .drainCheck => 4
  | .drainGet => 3
  | .putItem => 2
  | .setDone => 3
  | .putSentinel => 2
  | .stopped => 0

/-- Weight of Stage 2's remaining work inside one processing cycle. -/
def wS2 : S2PC → Nat
  | .getItem => 3
  | .putFeedback => 9
  | .putItem2 => 6
  | .setDone => 2
  | .putSentinel => 1
  | .stopped => 0

/-- Weight of Stage 3's remaining work. -/
def wS3 : S3PC → Nat
  | .getItem => 1
  | .stopped => 0

/-- Potential of a channel-1 entry: a work item still causes a full Stage 2
cycle, a sentinel only one dequeue. -/
def wCh1 : Option WorkItem → Nat
  | some _ => 8
  | none => 1

/-- Potential of a channel-2 entry. -/
def wCh2 : Option WorkItem → Nat
  | some _ => 2
  | none => 0

/-- Global variant: strictly decreases on every step of every stage, so no
infinite execution exists — every interleaving reaches a stuck state. -/
def pMeasure (n : Nat) (s : PState) : Nat :=
  20 * (n - s.s1i) + wS1 s.s1pc + wS2 s.s2pc + wS3 s.s3pc +
  (s.ch1.map wCh1).sum + (s.ch2.map wCh2).sum + 2 * s.fbch.length

/-- Schedule exhibiting the deadlock for `count = 2, capacity = 1`: Stage 1
passes its last feedback check before Stage 2 enqueues any feedback, then
stops; Stage 2 then blocks forever on the full feedback channel. -/
def dl2Labs : List Lab :=
  [.a, .a, .a, .a, .a, .b, .b, .b, .a, .a, .a, .b, .a, .c]

/-- Schedule exhibiting the deadlock for `count = 3, capacity = 1` in which
Stage 2 has consumed only 2 of the 3 items when the pipeline hangs. -/
def dl3Labs : List Lab :=
  [.a, .a, .a, .a, .a, .b, .a, .a, .a, .b, .b, .b, .a, .a, .a, .c]

/-- A complete schedule for `count = 1, capacity = 1`. -/
def w1Labs : List Lab :=
  [.a, .a, .a, .a, .a, .b, .a, .b, .b, .b, .b, .c, .b, .c]

/-- A complete schedule for `count = 0, capacity = 1`. -/
def w0Labs : List Lab := [.a, .a, .a, .b, .b, .b, .c]

/-- A schedule for `count = 2, capacity = 2` in which Stage 1 drains one
feedback record into item 1. -/
def w6Labs : List Lab := [.a, .a, .a, .b, .b, .a, .a, .a, .a]

/-- Prefix of `w6Labs` stopping while Stage 1 is at the feedback dequeue. -/
def w4Labs : List Lab := [.a, .a, .a, .b, .b, .a, .a]

/-- One Stage-1 step from the initial state: item 0 has just been built. -/
def c7Labs : List Lab := [.a]

def dl2State : PState := (runLabels 2 1 dl2Labs init).getD init

def dl3State : PState := (runLabels 3 1 dl3Labs init).getD init

def w1State : PState := (runLabels 1 1 w1Labs init).getD init

def w0State : PState := (runLabels 0 1 w0Labs init).getD init

def w6State : PState := (runLabels 2 2 w6Labs init).getD init

def w4State : PState := (runLabels 2 2 w4Labs init).getD init

def c7State : PState := (runLabels 1 1 c7Labs init).getD init

/-- The proposition asserted by C7's first sentence, formalised: every
WorkItem, from its creation by Stage A onward, has a boolean value under its
`processed` key. -/
def claim7Statement : Prop :=
  ∀ n cap : Nat, ∀ s : PState, Reachable n cap s →
    ∀ it : WorkItem, (s.s1item = some it ∨ it ∈ s.s1_log) →
      it.processed.isSome = true


lemma reachable_step {n cap : Nat} {s t : PState} (h : Reachable n cap s)
    (hs : Step n cap s t) : Reachable n cap t :=
  Relation.ReflTransGen.tail h hs

lemma reachable_runLabels {n cap : Nat} (ls : List Lab) {s t : PState}
    (h : Reachable n cap s) (hr : runLabels n cap ls s = some t) :
    Reachable n cap t := by
  induction ls generalizing s with
  | nil => simp [runLabels] at hr; exact hr ▸ h
  | cons l ls ih =>
      simp only [runLabels] at hr
      cases hl : stepOf n cap l s with
      | none => rw [hl] at hr; simp at hr
      | some u =>
          rw [hl] at hr
          exact ih (reachable_step h ⟨l, hl⟩) hr

lemma reachable_of_run {n cap : Nat} (ls : List Lab) {t : PState}
    (hr : runLabels n cap ls init = some t) : Reachable n cap t :=
  reachable_runLabels ls Relation.ReflTransGen.refl hr

lemma inv_init (n : Nat) : PInv n init := by
  refine
    { hlen := rfl, hids := ?_, hlog := ?_, hitem := ?_, hitem_pc := ?_,
      hi_le := ?_, hdone_pc := ?_, hch1_log := ?_, hch1 := ?_, hdrain := ?_,
      hproc_le := ?_, htaken := ?_, hs2item := ?_, hs2item_pc := ?_,
      hfb_log := ?_, hfbch := ?_, hfc_le := ?_, hfc_sum := ?_,
      hch2_log := ?_, hres := ?_, hres_le := ?_, hch2 := ?_, hc_stop := ?_ } <;>
    simp [init, bTookSentinel, fbSent, fwdSent, itemAdjLen]

lemma fbSent_le_processed (pc : S2PC) (p : Nat) : fbSent pc p ≤ p := by
  unfold fbSent; split <;> omega

lemma fwdSent_le_processed (pc : S2PC) (p : Nat) : fwdSent pc p ≤ p := by
  unfold fwdSent; split <;> omega

lemma fwdSent_le_fbSent (pc : S2PC) (p : Nat) : fwdSent pc p ≤ fbSent pc p := by
  cases pc <;> simp [fwdSent, fbSent, Nat.sub_le]

lemma inv_stepA {n cap : Nat} {s t : PState} (h : PInv n s)
    (hs : stepA n cap s = some t) : PInv n t := by
  obtain ⟨f1, f2, f3, f4, f5, f6, f7, f8, f9, f10, f11, f12, f13, f14, f15,
    f16, f17, f18, f19, f20, f21, f22, f23⟩ := h
  cases hpc : s.s1pc with
  | loopHead =>
      have hnone : s.s1item = none := by
        rcases hsi : s.s1item with _ | it
        · rfl
        · have := f5.mp (by rw [hsi]; rfl)
          rw [hpc] at this; simp at this
      simp only [stepA, hpc] at hs
      split at hs
      case isTrue hlt =>
          obtain rfl := Option.some.inj hs
          refine
            { hlen := f1, hids := f2, hlog := f3, hitem := ?_, hitem_pc := by simp,
              hi_le := f6, hdone_pc := by intro hc; simp at hc,
              hch1_log := by simpa [hpc] using f8, hch1 := by simpa [hpc] using f9,
              hdrain := ?_, hproc_le := f11, htaken := ?_,
              hs2item := f13, hs2item_pc := f14, hfb_log := f15, hfbch := f16,
              hfc_le := f17, hfc_sum := ?_, hch2_log := f19, hres := f20,
              hres_le := f21, hch2 := f22, hc_stop := f23 }
          · intro it hit
            obtain rfl := (Option.some.inj hit).symm
            exact ⟨rfl, rfl, rfl, hlt, by simp⟩
          · intro hd
            simp at hd
          · intro hb
            have h2' := (f12 hb).2
            rw [hpc] at h2'; simp at h2'
          · have := f18
            rw [hnone] at this
            simpa [itemAdjLen] using this
      case isFalse hge =>
          obtain rfl := Option.some.inj hs
          refine
            { hlen := f1, hids := f2, hlog := f3, hitem := f4,
              hitem_pc := ?_, hi_le := f6, hdone_pc := ?_,
              hch1_log := by simpa [hpc] using f8, hch1 := by simpa [hpc] using f9,
              hdrain := by intro hd; simp at hd, hproc_le := f11, htaken := ?_,
              hs2item := f13, hs2item_pc := f14, hfb_log := f15, hfbch := f16,
              hfc_le := f17, hfc_sum := f18, hch2_log := f19, hres := f20,
              hres_le := f21, hch2 := f22, hc_stop := f23 }
          · simp [hnone]
          · intro _
            show s.s1i = n
            omega
          · intro hb
            have h2' := (f12 hb).2
            rw [hpc] at h2'; simp at h2'
  | drainCheck =>
      simp only [stepA, hpc] at hs
      split at hs
      case isTrue hemp =>
          obtain rfl := Option.some.inj hs
          refine
            { hlen := f1, hids := f2, hlog := f3, hitem := f4, hitem_pc := ?_,
              hi_le := f6, hdone_pc := by intro hc; simp at hc,
              hch1_log := by simpa [hpc] using f8, hch1 := by simpa [hpc] using f9,
              hdrain := by intro hd; simp at hd, hproc_le := f11, htaken := ?_,
              hs2item := f13, hs2item_pc := f14, hfb_log := f15, hfbch := f16,
              hfc_le := f17, hfc_sum := f18, hch2_log := f19, hres := f20,
              hres_le := f21, hch2 := f22, hc_stop := f23 }
          · rw [f5, hpc]; simp
          · intro hb
            have h2' := (f12 hb).2
            rw [hpc] at h2'; simp at h2'
      case isFalse hemp =>
          obtain rfl := Option.some.inj hs
          refine
            { hlen := f1, hids := f2, hlog := f3, hitem := f4, hitem_pc := ?_,
              hi_le := f6, hdone_pc := by intro hc; simp at hc,
              hch1_log := by simpa [hpc] using f8, hch1 := by simpa [hpc] using f9,
              hdrain := ?_, hproc_le := f11, htaken := ?_,
              hs2item := f13, hs2item_pc := f14, hfb_log := f15, hfbch := f16,
              hfc_le := f17, hfc_sum := f18, hch2_log := f19, hres := f20,
              hres_le := f21, hch2 := f22, hc_stop := f23 }
          · rw [f5, hpc]; simp
          · intro _
            simpa [List.isEmpty_iff] using hemp
          · intro hb
            have h2' := (f12 hb).2
            rw [hpc] at h2'; simp at h2'
  | drainGet =>
      simp only [stepA, hpc] at hs
      rcases hfb : s.fbch with _ | ⟨fb, rest⟩
      · rcases hsi : s.s1item with _ | it <;> rw [hfb, hsi] at hs <;> simp at hs
      rcases hsi : s.s1item with _ | it
      · rw [hfb, hsi] at hs; simp at hs
      rw [hfb, hsi] at hs
      simp only [Option.some.injEq] at hs
      subst hs
      -- the drained record is the `s.feedback_count`-th record ever enqueued
      have hfc_lt : s.feedback_count < s.fb_log.length := by
        by_contra hge
        have : s.fb_log.drop s.feedback_count = [] :=
          List.drop_eq_nil_of_le (by omega)
        rw [← f16, hfb] at this; simp at this
      have hfb_head : fb = mkFb s.feedback_count := by
        have hdrop := List.drop_eq_getElem_cons (l := s.fb_log) hfc_lt
        rw [← f16, hfb] at hdrop
        have heq : fb = s.fb_log[s.feedback_count] := by
          exact (List.cons.inj hdrop).1
        rw [heq, List.getElem_of_eq f15 hfc_lt]
        simp [List.getElem_range, mkFb]
      have hid : it.id = s.s1i := (f4 it hsi).1
      have hfb_lt : fb.from_item < it.id := by
        rw [hfb_head, hid]
        show s.feedback_count < s.s1i
        have h1 : s.fb_log.length = fbSent s.s2pc s.processed := by rw [f15]; simp
        have h2 := fbSent_le_processed s.s2pc s.processed
        have := f11
        rw [f1] at this
        omega
      refine
        { hlen := f1, hids := f2, hlog := f3, hitem := ?_, hitem_pc := by simp,
          hi_le := f6, hdone_pc := by intro hc; simp at hc,
          hch1_log := by simpa [hpc] using f8, hch1 := by simpa [hpc] using f9,
          hdrain := by intro hd; simp at hd, hproc_le := f11, htaken := ?_,
          hs2item := f13, hs2item_pc := f14, hfb_log := f15, hfbch := ?_,
          hfc_le := by show s.feedback_count + 1 ≤ s.fb_log.length; omega,
          hfc_sum := ?_, hch2_log := f19, hres := f20,
          hres_le := f21, hch2 := f22, hc_stop := f23 }
      · intro it' hit'
        obtain rfl := (Option.some.inj hit').symm
        obtain ⟨h1', h2', h3', h4', h5'⟩ := f4 it hsi
        refine ⟨h1', h2', h3', h4', ?_⟩
        intro fb' hfb'
        simp only [List.mem_append, List.mem_singleton] at hfb'
        rcases hfb' with hmem | rfl
        · exact h5' fb' hmem
        · exact hfb_lt
      · intro hb
        have h2' := (f12 hb).2
        rw [hpc] at h2'; simp at h2'
      · show rest = s.fb_log.drop (s.feedback_count + 1)
        have hdrop := List.drop_eq_getElem_cons (l := s.fb_log) hfc_lt
        rw [← f16, hfb] at hdrop
        exact (List.cons.inj hdrop).2
      · show s.feedback_count + 1 =
          (s.s1_log.map fun it => it.adjustments.length).sum +
          itemAdjLen (some { it with adjustments := it.adjustments ++ [fb] })
        have := f18
        rw [hsi] at this
        simp only [itemAdjLen, List.length_append, List.length_singleton] at this ⊢
        omega
  | putItem =>
      simp only [stepA, hpc] at hs
      rcases hsi : s.s1item with _ | it
      · rw [hsi] at hs; simp at hs
      simp only [hsi] at hs
      split at hs
      case isFalse h' => simp at hs
      case isTrue hcap =>
      obtain rfl := Option.some.inj hs
      obtain ⟨hid, hval, hpr, hlt, hadj⟩ := f4 it hsi
      refine
        { hlen := by simp [f1], hids := ?_, hlog := ?_,
          hitem := by intro it' hit'; simp at hit',
          hitem_pc := by simp, hi_le := by show s.s1i + 1 ≤ n; omega,
          hdone_pc := by intro hc; simp at hc,
          hch1_log := ?_, hch1 := ?_,
          hdrain := by intro hd; simp at hd, hproc_le := by simp; omega,
          htaken := ?_, hs2item := ?_, hs2item_pc := f14, hfb_log := f15,
          hfbch := f16, hfc_le := f17, hfc_sum := ?_, hch2_log := ?_,
          hres := ?_, hres_le := f21, hch2 := ?_, hc_stop := f23 }
      · intro k hk
        simp only [List.length_append, List.length_singleton] at hk
        rcases Nat.lt_or_ge k s.s1_log.length with hlt' | hge'
        · have : (s.s1_log ++ [it]).get ⟨k, by simp; omega⟩ = s.s1_log.get ⟨k, hlt'⟩ := by
            simp [List.get_eq_getElem, List.getElem_append_left hlt']
          rw [this]; exact f2 k hlt'
        · have hk' : k = s.s1_log.length := by omega
          subst hk'
          have : (s.s1_log ++ [it]).get ⟨s.s1_log.length, by simp⟩ = it := by
            simp [List.get_eq_getElem]
          rw [this, hid, f1]
      · intro it' hit'
        simp only [List.mem_append, List.mem_singleton] at hit'
        rcases hit' with hmem | rfl
        · exact f3 it' hmem
        · exact ⟨by rw [hid, hval], hpr, hadj⟩
      · show s.ch1_log ++ [some it] = (s.s1_log ++ [it]).map some ++ _
        rw [f8, hpc]
        simp
      · show s.ch1 ++ [some it] = ((s.s1_log ++ [it]).drop s.processed).map some ++ _
        rw [f9, hpc]
        rw [List.drop_append_of_le_length f11]
        simp
      · intro hb
        have h2' := (f12 hb).2
        rw [hpc] at h2'; simp at h2'
      · intro it' hit'
        obtain ⟨hp, heq, hge1⟩ := f13 it' hit'
        refine ⟨by simp; omega, ?_, hge1⟩
        rw [heq]
        congr 1
        rw [List.get_eq_getElem, List.get_eq_getElem,
          List.getElem_append_left hp]
      · show s.feedback_count =
          ((s.s1_log ++ [it]).map fun x => x.adjustments.length).sum + itemAdjLen none
        have := f18
        rw [hsi] at this
        simp only [itemAdjLen] at this ⊢
        simp [List.sum_append]
        omega
      · show s.ch2_log = ((s.s1_log ++ [it]).take (fwdSent _ _)).map _ ++ _
        rw [f19]
        congr 1
        rw [List.take_append_of_le_length]
        exact le_trans (fwdSent_le_processed s.s2pc s.processed) f11
      · show s.results = ((s.s1_log ++ [it]).take s.results.length).map itemB
        rw [List.take_append_of_le_length
          (le_trans f21 (le_trans (fwdSent_le_processed s.s2pc s.processed) f11))]
        exact f20
      · show s.ch2 = (((s.s1_log ++ [it]).take (fwdSent _ _)).drop s.results.length).map _ ++ _
        rw [f22]
        congr 2
        rw [List.take_append_of_le_length]
        exact le_trans (fwdSent_le_processed s.s2pc s.processed) f11
  | setDone =>
      simp only [stepA, hpc] at hs
      obtain rfl := Option.some.inj hs
      have hnone : s.s1item = none := by
        rcases hsi : s.s1item with _ | it
        · rfl
        · have := f5.mp (by rw [hsi]; rfl)
          rw [hpc] at this; simp at this
      refine
        { hlen := f1, hids := f2, hlog := f3, hitem := f4, hitem_pc := by simp [hnone],
          hi_le := f6, hdone_pc := fun _ => f7 (by rw [hpc]; simp),
          hch1_log := by simpa [hpc] using f8, hch1 := by simpa [hpc] using f9,
          hdrain := by intro hd; simp at hd, hproc_le := f11, htaken := ?_,
          hs2item := f13, hs2item_pc := f14, hfb_log := f15, hfbch := f16,
          hfc_le := f17, hfc_sum := f18, hch2_log := f19, hres := f20,
          hres_le := f21, hch2 := f22, hc_stop := f23 }
      · intro hb
        have h2' := (f12 hb).2
        rw [hpc] at h2'; simp at h2'
  | putSentinel =>
      simp only [stepA, hpc] at hs
      split at hs
      case isFalse h' => simp at hs
      case isTrue hcap =>
      obtain rfl := Option.some.inj hs
      have hnone : s.s1item = none := by
        rcases hsi : s.s1item with _ | it
        · rfl
        · have := f5.mp (by rw [hsi]; rfl)
          rw [hpc] at this; simp at this
      have hnb : bTookSentinel s.s2pc = false := by
        rcases hb : bTookSentinel s.s2pc
        · rfl
        · have h2' := (f12 hb).2
          rw [hpc] at h2'; simp at h2'
      refine
        { hlen := f1, hids := f2, hlog := f3, hitem := f4, hitem_pc := by simp [hnone],
          hi_le := f6, hdone_pc := fun _ => f7 (by rw [hpc]; simp),
          hch1_log := ?_, hch1 := ?_,
          hdrain := by intro hd; simp at hd, hproc_le := f11, htaken := ?_,
          hs2item := f13, hs2item_pc := f14, hfb_log := f15, hfbch := f16,
          hfc_le := f17, hfc_sum := f18, hch2_log := f19, hres := f20,
          hres_le := f21, hch2 := f22, hc_stop := f23 }
      · show s.ch1_log ++ [none] = s.s1_log.map some ++ _
        rw [f8, hpc]; simp
      · show s.ch1 ++ [none] = (s.s1_log.drop s.processed).map some ++ _
        rw [f9, hpc]
        simp [hnb]
      · intro hb
        rw [hnb] at hb; simp at hb
  | stopped =>
      simp only [stepA, hpc] at hs
      simp at hs

lemma take_succ_get {α : Type} (l : List α) (k : Nat) (hk : k < l.length) :
    l.take (k + 1) = l.take k ++ [l.get ⟨k, hk⟩] := by
  rw [List.take_succ, List.getElem?_eq_getElem hk]
  simp

lemma inv_stepB {n cap : Nat} {s t : PState} (h : PInv n s)
    (hs : stepB cap s = some t) : PInv n t := by
  obtain ⟨f1, f2, f3, f4, f5, f6, f7, f8, f9, f10, f11, f12, f13, f14, f15,
    f16, f17, f18, f19, f20, f21, f22, f23⟩ := h
  cases hpc2 : s.s2pc with
  | getItem =>
      simp only [stepB, hpc2] at hs
      rw [hpc2] at f9
      simp only [bTookSentinel] at f9
      rcases hch1 : s.ch1 with _ | ⟨x, rest⟩
      · rw [hch1] at hs; simp at hs
      rcases x with _ | it
      · -- Stage 2 dequeues the sentinel and leaves its loop
        rw [hch1] at hs
        simp only [Option.some.injEq] at hs
        subst hs
        rw [hch1] at f9
        rcases hd : s.s1_log.drop s.processed with _ | ⟨a, d⟩
        · rw [hd] at f9
          simp only [List.map_nil, List.nil_append] at f9
          have hstop1 : s.s1pc = .stopped ∧ rest = [] := by
            by_cases hst : s.s1pc = .stopped
            · simp [hst] at f9
              exact ⟨hst, f9⟩
            · simp [hst] at f9
          obtain ⟨hstop1, hrest⟩ := hstop1
          have hplen : s.processed = s.s1_log.length := by
            have := congrArg List.length hd
            rw [List.length_drop] at this
            simp at this
            omega
          refine
            { hlen := f1, hids := f2, hlog := f3, hitem := f4, hitem_pc := f5,
              hi_le := f6, hdone_pc := f7, hch1_log := f8, hch1 := ?_,
              hdrain := f10, hproc_le := f11, htaken := fun _ => ⟨hplen, hstop1⟩,
              hs2item := f13, hs2item_pc := ?_, hfb_log := ?_, hfbch := f16,
              hfc_le := f17, hfc_sum := f18, hch2_log := ?_, hres := f20,
              hres_le := ?_, hch2 := ?_, hc_stop := ?_ }
          · show rest = (s.s1_log.drop s.processed).map some ++ _
            rw [hd, hrest]
            simp [bTookSentinel]
          · have hs2none : s.s2item = none := by
              rcases hx : s.s2item with _ | u
              · rfl
              · have := f14.mp (by rw [hx]; rfl)
                rw [hpc2] at this; simp at this
            simp [hs2none]
          · show s.fb_log = List.map mkFb (List.range (fbSent .setDone s.processed))
            rw [hpc2] at f15
            simpa [fbSent] using f15
          · show s.ch2_log = (s.s1_log.take (fwdSent .setDone s.processed)).map _ ++ _
            rw [hpc2] at f19
            simpa [fwdSent] using f19
          · show s.results.length ≤ fwdSent .setDone s.processed
            rw [hpc2] at f21
            simpa [fwdSent] using f21
          · show s.ch2 = ((s.s1_log.take (fwdSent .setDone s.processed)).drop
              s.results.length).map _ ++ _
            rw [hpc2] at f22
            simpa [fwdSent] using f22
          · intro h3
            have := (f23 h3).1
            rw [hpc2] at this; simp at this
        · rw [hd] at f9
          simp only [List.map_cons, List.cons_append] at f9
          simp at f9
      · -- Stage 2 dequeues a work item and transforms it
        rw [hch1] at hs
        simp only [Option.some.injEq] at hs
        subst hs
        rw [hch1] at f9
        rcases hd : s.s1_log.drop s.processed with _ | ⟨a, d⟩
        · rw [hd] at f9
          simp only [List.map_nil, List.nil_append] at f9
          by_cases hst : s.s1pc = .stopped
          · simp [hst] at f9
          · simp [hst] at f9
        rw [hd] at f9
        simp only [List.map_cons, List.cons_append] at f9
        obtain ⟨h1, h2⟩ := List.cons.inj f9
        obtain rfl : it = a := Option.some.inj h1
        have hp : s.processed < s.s1_log.length := by
          have := congrArg List.length hd
          rw [List.length_drop] at this
          simp at this
          omega
        have hget := List.drop_eq_getElem_cons (l := s.s1_log) hp
        rw [hd] at hget
        obtain ⟨ha, hd2⟩ := List.cons.inj hget
        refine
          { hlen := f1, hids := f2, hlog := f3, hitem := f4, hitem_pc := f5,
            hi_le := f6, hdone_pc := f7, hch1_log := f8, hch1 := ?_,
            hdrain := f10,
            hproc_le := by show s.processed + 1 ≤ s.s1_log.length; omega,
            htaken := by intro hb; simp [bTookSentinel] at hb,
            hs2item := ?_, hs2item_pc := by simp,
            hfb_log := ?_, hfbch := f16, hfc_le := f17, hfc_sum := f18,
            hch2_log := ?_, hres := f20, hres_le := ?_, hch2 := ?_,
            hc_stop := ?_ }
        · show rest = (s.s1_log.drop (s.processed + 1)).map some ++ _
          rw [h2, ← hd2]
          simp [bTookSentinel]
        · intro it' hit'
          obtain rfl := (Option.some.inj hit').symm
          have hp' : s.processed + 1 - 1 < s.s1_log.length := by simpa using hp
          refine ⟨hp', ?_, by show 1 ≤ s.processed + 1; omega⟩
          have hgg : s.s1_log.get ⟨s.processed + 1 - 1, hp'⟩ = s.s1_log[s.processed] := by
            simp [List.get_eq_getElem]
          show itemB it = itemB (s.s1_log.get ⟨s.processed + 1 - 1, hp'⟩)
          rw [hgg, ← ha]
        · show s.fb_log = List.map mkFb (List.range (fbSent .putFeedback (s.processed + 1)))
          rw [hpc2] at f15
          simpa [fbSent] using f15
        · show s.ch2_log = (s.s1_log.take (fwdSent .putFeedback (s.processed + 1))).map _ ++ _
          rw [hpc2] at f19
          simpa [fwdSent] using f19
        · show s.results.length ≤ fwdSent .putFeedback (s.processed + 1)
          rw [hpc2] at f21
          simpa [fwdSent] using f21
        · show s.ch2 = ((s.s1_log.take (fwdSent .putFeedback (s.processed + 1))).drop
            s.results.length).map _ ++ _
          rw [hpc2] at f22
          simpa [fwdSent] using f22
        · intro h3
          have := (f23 h3).1
          rw [hpc2] at this; simp at this
  | putFeedback =>
      simp only [stepB, hpc2] at hs
      rcases hsi2 : s.s2item with _ | it
      · rw [hsi2] at hs; simp at hs
      simp only [hsi2] at hs
      split at hs
      case isFalse h' => simp at hs
      case isTrue hcap =>
      obtain rfl := Option.some.inj hs
      obtain ⟨hp, hit, hp1⟩ := f13 it hsi2
      have hid : it.id = s.processed - 1 := by
        rw [hit]
        show (s.s1_log.get ⟨s.processed - 1, hp⟩).id = s.processed - 1
        exact f2 _ hp
      refine
        { hlen := f1, hids := f2, hlog := f3, hitem := f4, hitem_pc := f5,
          hi_le := f6, hdone_pc := f7, hch1_log := f8, hch1 := ?_,
          hdrain := by intro _hd; simp, hproc_le := f11,
          htaken := by intro hb; simp [bTookSentinel] at hb,
          hs2item := by intro it' hit'; exact f13 it' (by rw [hsi2]; exact hit'),
          hs2item_pc := by simp,
          hfb_log := ?_, hfbch := ?_, hfc_le := ?_, hfc_sum := f18,
          hch2_log := ?_, hres := f20, hres_le := ?_, hch2 := ?_,
          hc_stop := ?_ }
      · show s.ch1 = _ ++ _
        rw [f9, hpc2]
        simp [bTookSentinel]
      · have hrec : (⟨it.id, "increase_rate", s.processed⟩ : FeedbackRecord) =
            mkFb (s.processed - 1) := by
          simp [mkFb, hid]
          omega
        show s.fb_log ++ [(⟨it.id, "increase_rate", s.processed⟩ : FeedbackRecord)] =
          List.map mkFb (List.range (fbSent .putItem2 s.processed))
        rw [hpc2] at f15
        simp only [fbSent] at f15 ⊢
        rw [f15, hrec]
        have hps : s.processed = (s.processed - 1) + 1 := by omega
        conv_rhs => rw [hps]
        rw [List.range_succ]
        simp
      · show s.fbch ++ [(⟨it.id, "increase_rate", s.processed⟩ : FeedbackRecord)] =
          (s.fb_log ++
            [(⟨it.id, "increase_rate", s.processed⟩ : FeedbackRecord)]).drop
            s.feedback_count
        rw [List.drop_append_of_le_length f17, f16]
      · show s.feedback_count ≤ (s.fb_log ++ _).length
        rw [List.length_append]
        omega
      · show s.ch2_log = (s.s1_log.take (fwdSent .putItem2 s.processed)).map _ ++ _
        rw [hpc2] at f19
        simpa [fwdSent] using f19
      · show s.results.length ≤ fwdSent .putItem2 s.processed
        rw [hpc2] at f21
        simpa [fwdSent] using f21
      · show s.ch2 = ((s.s1_log.take (fwdSent .putItem2 s.processed)).drop
          s.results.length).map _ ++ _
        rw [hpc2] at f22
        simpa [fwdSent] using f22
      · intro h3
        have := (f23 h3).1
        rw [hpc2] at this; simp at this
  | putItem2 =>
      simp only [stepB, hpc2] at hs
      rcases hsi2 : s.s2item with _ | it
      · rw [hsi2] at hs; simp at hs
      simp only [hsi2] at hs
      split at hs
      case isFalse h' => simp at hs
      case isTrue hcap =>
      obtain rfl := Option.some.inj hs
      obtain ⟨hp, hit, hp1⟩ := f13 it hsi2
      have hfw : fwdSent S2PC.putItem2 s.processed = s.processed - 1 := by
        simp [fwdSent]
      have htk : (s.s1_log.take (s.processed - 1)).length = s.processed - 1 := by
        rw [List.length_take]; omega
      refine
        { hlen := f1, hids := f2, hlog := f3, hitem := f4, hitem_pc := f5,
          hi_le := f6, hdone_pc := f7, hch1_log := f8, hch1 := ?_,
          hdrain := f10, hproc_le := f11,
          htaken := by intro hb; simp [bTookSentinel] at hb,
          hs2item := by intro it' hit'; simp at hit',
          hs2item_pc := by simp,
          hfb_log := ?_, hfbch := f16, hfc_le := f17, hfc_sum := f18,
          hch2_log := ?_, hres := f20, hres_le := ?_, hch2 := ?_,
          hc_stop := ?_ }
      · show s.ch1 = _ ++ _
        rw [f9, hpc2]
        simp [bTookSentinel]
      · show s.fb_log = List.map mkFb (List.range (fbSent .getItem s.processed))
        rw [hpc2] at f15
        simpa [fbSent] using f15
      · show s.ch2_log ++ [some it] =
          (s.s1_log.take (fwdSent .getItem s.processed)).map (fun x => some (itemB x)) ++ _
        rw [hpc2] at f19
        simp [fwdSent] at f19
        simp only [fwdSent]
        have hps : s.processed = (s.processed - 1) + 1 := by omega
        have hp2 : s.processed - 1 < (s.s1_log.map (fun x => some (itemB x))).length := by
          simpa using hp
        rw [f19, List.map_take]
        conv_rhs => rw [hps]
        rw [take_succ_get _ _ hp2]
        simp [hit, List.get_eq_getElem]
      · show s.results.length ≤ fwdSent .getItem s.processed
        rw [hpc2] at f21
        simp [fwdSent] at f21
        simp only [fwdSent]
        omega
      · show s.ch2 ++ [some it] =
          ((s.s1_log.take (fwdSent .getItem s.processed)).drop s.results.length).map
            (fun x => some (itemB x)) ++ _
        rw [hpc2] at f22 f21
        simp [fwdSent] at f22 f21
        simp only [fwdSent]
        have hps : s.processed = (s.processed - 1) + 1 := by omega
        have hp2 : s.processed - 1 < (s.s1_log.map (fun x => some (itemB x))).length := by
          simpa using hp
        rw [f22, List.map_drop, List.map_take]
        conv_rhs => rw [hps]
        rw [take_succ_get _ _ hp2]
        rw [List.drop_append_of_le_length
          (by rw [List.length_take]; simp; omega)]
        simp [hit, List.get_eq_getElem]
      · intro h3
        have := (f23 h3).1
        rw [hpc2] at this; simp at this
  | setDone =>
      simp only [stepB, hpc2] at hs
      obtain rfl := Option.some.inj hs
      have hs2none : s.s2item = none := by
        rcases hx : s.s2item with _ | u
        · rfl
        · have := f14.mp (by rw [hx]; rfl)
          rw [hpc2] at this; simp at this
      refine
        { hlen := f1, hids := f2, hlog := f3, hitem := f4, hitem_pc := f5,
          hi_le := f6, hdone_pc := f7, hch1_log := f8, hch1 := ?_,
          hdrain := f10, hproc_le := f11,
          htaken := fun _ => f12 (by rw [hpc2]; rfl),
          hs2item := f13, hs2item_pc := by simp [hs2none],
          hfb_log := ?_, hfbch := f16, hfc_le := f17, hfc_sum := f18,
          hch2_log := ?_, hres := f20, hres_le := ?_, hch2 := ?_,
          hc_stop := ?_ }
      · show s.ch1 = _ ++ _
        rw [f9, hpc2]
        simp [bTookSentinel]
      · show s.fb_log = List.map mkFb (List.range (fbSent .putSentinel s.processed))
        rw [hpc2] at f15
        simpa [fbSent] using f15
      · show s.ch2_log = (s.s1_log.take (fwdSent .putSentinel s.processed)).map _ ++ _
        rw [hpc2] at f19
        simpa [fwdSent] using f19
      · show s.results.length ≤ fwdSent .putSentinel s.processed
        rw [hpc2] at f21
        simpa [fwdSent] using f21
      · show s.ch2 = ((s.s1_log.take (fwdSent .putSentinel s.processed)).drop
          s.results.length).map _ ++ _
        rw [hpc2] at f22
        simpa [fwdSent] using f22
      · intro h3
        have := (f23 h3).1
        rw [hpc2] at this; simp at this
  | putSentinel =>
      simp only [stepB, hpc2] at hs
      split at hs
      case isFalse h' => simp at hs
      case isTrue hcap =>
      obtain rfl := Option.some.inj hs
      obtain ⟨hplen, hstop1⟩ := f12 (by rw [hpc2]; rfl)
      have hs3 : ¬ s.s3pc = .stopped := by
        intro h3
        have := (f23 h3).1
        rw [hpc2] at this; simp at this
      have hs2none : s.s2item = none := by
        rcases hx : s.s2item with _ | u
        · rfl
        · have := f14.mp (by rw [hx]; rfl)
          rw [hpc2] at this; simp at this
      refine
        { hlen := f1, hids := f2, hlog := f3, hitem := f4, hitem_pc := f5,
          hi_le := f6, hdone_pc := f7, hch1_log := f8, hch1 := ?_,
          hdrain := f10, hproc_le := f11,
          htaken := fun _ => ⟨hplen, hstop1⟩,
          hs2item := f13, hs2item_pc := by simp [hs2none],
          hfb_log := ?_, hfbch := f16, hfc_le := f17, hfc_sum := f18,
          hch2_log := ?_, hres := f20, hres_le := ?_, hch2 := ?_,
          hc_stop := ?_ }
      · show s.ch1 = _ ++ _
        rw [f9, hpc2]
        simp [bTookSentinel]
      · show s.fb_log = List.map mkFb (List.range (fbSent .stopped s.processed))
        rw [hpc2] at f15
        simpa [fbSent] using f15
      · show s.ch2_log ++ [none] = (s.s1_log.take (fwdSent .stopped s.processed)).map _ ++ _
        rw [hpc2] at f19
        rw [f19]
        simp [fwdSent]
      · show s.results.length ≤ fwdSent .stopped s.processed
        rw [hpc2] at f21
        simpa [fwdSent] using f21
      · show s.ch2 ++ [none] = ((s.s1_log.take (fwdSent .stopped s.processed)).drop
          s.results.length).map _ ++ _
        rw [hpc2] at f22
        rw [f22]
        simp [fwdSent, hs3]
      · intro h3
        exact absurd h3 hs3
  | stopped =>
      simp only [stepB, hpc2] at hs
      simp at hs

lemma inv_stepC {n : Nat} {s t : PState} (h : PInv n s)
    (hs : stepC s = some t) : PInv n t := by
  obtain ⟨f1, f2, f3, f4, f5, f6, f7, f8, f9, f10, f11, f12, f13, f14, f15,
    f16, f17, f18, f19, f20, f21, f22, f23⟩ := h
  cases hpc3 : s.s3pc with
  | getItem =>
      simp only [stepC, hpc3] at hs
      have hF_le : fwdSent s.s2pc s.processed ≤ s.s1_log.length :=
        le_trans (fwdSent_le_processed s.s2pc s.processed) f11
      rcases hch2 : s.ch2 with _ | ⟨x, rest⟩
      · rw [hch2] at hs; simp at hs
      rcases x with _ | it
      · -- Stage 3 dequeues the sentinel and stops
        rw [hch2] at hs
        simp only [Option.some.injEq] at hs
        subst hs
        rw [hch2] at f22
        rcases hd : (s.s1_log.take (fwdSent s.s2pc s.processed)).drop
            s.results.length with _ | ⟨a, d⟩
        · rw [hd] at f22
          simp only [List.map_nil, List.nil_append] at f22
          have hcond : s.s2pc = .stopped ∧ rest = [] := by
            by_cases hc : s.s2pc = .stopped ∧ ¬ s.s3pc = .stopped
            · simp only [if_pos hc] at f22
              exact ⟨hc.1, by simpa using (List.cons.inj f22).2⟩
            · simp only [if_neg hc] at f22
              simp at f22
          obtain ⟨hstop2, hrest⟩ := hcond
          have hrF : s.results.length = fwdSent s.s2pc s.processed := by
            have := congrArg List.length hd
            rw [List.length_drop, List.length_take, min_eq_left hF_le] at this
            simp at this
            omega
          refine
            { hlen := f1, hids := f2, hlog := f3, hitem := f4, hitem_pc := f5,
              hi_le := f6, hdone_pc := f7, hch1_log := f8, hch1 := f9,
              hdrain := f10, hproc_le := f11, htaken := f12,
              hs2item := f13, hs2item_pc := f14, hfb_log := f15, hfbch := f16,
              hfc_le := f17, hfc_sum := f18, hch2_log := f19, hres := f20,
              hres_le := f21, hch2 := ?_, hc_stop := fun _ => ⟨hstop2, hrF⟩ }
          · show rest = _ ++ _
            rw [hd, hrest]
            simp
        · rw [hd] at f22
          simp only [List.map_cons, List.cons_append] at f22
          simp at f22
      · -- Stage 3 dequeues a transformed item and collects it
        rw [hch2] at hs
        simp only [Option.some.injEq] at hs
        subst hs
        rw [hch2] at f22
        rcases hd : (s.s1_log.take (fwdSent s.s2pc s.processed)).drop
            s.results.length with _ | ⟨a, d⟩
        · rw [hd] at f22
          simp only [List.map_nil, List.nil_append] at f22
          by_cases hc : s.s2pc = .stopped ∧ ¬ s.s3pc = .stopped
          · simp only [if_pos hc] at f22
            simp at f22
          · simp only [if_neg hc] at f22
            simp at f22
        rw [hd] at f22
        simp only [List.map_cons, List.cons_append] at f22
        obtain ⟨h1, h2⟩ := List.cons.inj f22
        obtain rfl : it = itemB a := Option.some.inj h1
        have hp_r : s.results.length <
            (s.s1_log.take (fwdSent s.s2pc s.processed)).length := by
          have := congrArg List.length hd
          rw [List.length_drop, List.length_cons] at this
          omega
        have hr_lt : s.results.length < s.s1_log.length :=
          lt_of_lt_of_le hp_r (by rw [List.length_take]; exact min_le_right _ _)
        have hrF_lt : s.results.length < fwdSent s.s2pc s.processed :=
          lt_of_lt_of_le hp_r (by rw [List.length_take]; exact min_le_left _ _)
        have hget := List.drop_eq_getElem_cons
          (l := s.s1_log.take (fwdSent s.s2pc s.processed)) hp_r
        rw [hd] at hget
        obtain ⟨ha, hd2⟩ := List.cons.inj hget
        have ha' : a = s.s1_log[s.results.length] := by
          rw [ha]
          exact List.getElem_take s.s1_log
        have hr1F : s.results.length + 1 ≤ fwdSent s.s2pc s.processed := hrF_lt
        refine
          { hlen := f1, hids := f2, hlog := f3, hitem := f4, hitem_pc := f5,
            hi_le := f6, hdone_pc := f7, hch1_log := f8, hch1 := f9,
            hdrain := f10, hproc_le := f11, htaken := f12,
            hs2item := f13, hs2item_pc := f14, hfb_log := f15, hfbch := f16,
            hfc_le := f17, hfc_sum := f18, hch2_log := f19, hres := ?_,
            hres_le := ?_, hch2 := ?_, hc_stop := ?_ }
        · show s.results ++ [itemB a] =
            (s.s1_log.take (s.results ++ [itemB a]).length).map itemB
          rw [List.length_append, List.length_singleton]
          rw [take_succ_get s.s1_log s.results.length hr_lt]
          rw [List.map_append]
          rw [← f20]
          simp [ha', List.get_eq_getElem]
        · show (s.results ++ [itemB a]).length ≤ fwdSent s.s2pc s.processed
          rw [List.length_append, List.length_singleton]
          exact hr1F
        · show rest = ((s.s1_log.take (fwdSent s.s2pc s.processed)).drop
            (s.results ++ [itemB a]).length).map (fun x => some (itemB x)) ++ _
          rw [List.length_append, List.length_singleton]
          rw [h2, hd2]
          simp [hpc3]
        · intro h3
          simp at h3
  | stopped =>
      simp only [stepC, hpc3] at hs
      simp at hs

lemma inv_step {n cap : Nat} {s t : PState} (h : PInv n s)
    (hst : Step n cap s t) : PInv n t := by
  obtain ⟨l, hl⟩ := hst
  cases l with
  | a => exact inv_stepA h hl
  | b => exact inv_stepB h hl
  | c => exact inv_stepC h hl

lemma inv_reachable {n cap : Nat} {s : PState} (h : Reachable n cap s) :
    PInv n s := by
  induction h with
  | refl => exact inv_init n
  | tail _ hstep ih => exact inv_step ih hstep

lemma pMeasure_step {n cap : Nat} {s t : PState} (hinv : PInv n s)
    (hst : Step n cap s t) : pMeasure n t < pMeasure n s := by
  obtain ⟨l, hl⟩ := hst
  cases l with
  | a =>
      simp only [stepOf] at hl
      cases hpc : s.s1pc with
      | loopHead =>
          simp only [stepA, hpc] at hl
          split at hl <;> obtain rfl := Option.some.inj hl <;>
            simp [pMeasure, wS1, hpc]
      | drainCheck =>
          simp only [stepA, hpc] at hl
          split at hl <;> obtain rfl := Option.some.inj hl <;>
            simp [pMeasure, wS1, hpc]
      | drainGet =>
          simp only [stepA, hpc] at hl
          rcases hfb : s.fbch with _ | ⟨fb, rest⟩
          · rcases hsi : s.s1item with _ | it <;> rw [hfb, hsi] at hl <;>
              simp at hl
          rcases hsi : s.s1item with _ | it
          · rw [hfb, hsi] at hl; simp at hl
          rw [hfb, hsi] at hl
          simp only [Option.some.injEq] at hl
          subst hl
          simp [pMeasure, wS1, hpc, hfb]
          omega
      | putItem =>
          simp only [stepA, hpc] at hl
          rcases hsi : s.s1item with _ | it
          · rw [hsi] at hl; simp at hl
          simp only [hsi] at hl
          split at hl
          case isFalse h' => simp at hl
          case isTrue hcap =>
          obtain rfl := Option.some.inj hl
          have hlt : s.s1i < n := (hinv.hitem it hsi).2.2.2.1
          simp [pMeasure, wS1, hpc, wCh1]
          omega
      | setDone =>
          simp only [stepA, hpc] at hl
          obtain rfl := Option.some.inj hl
          simp [pMeasure, wS1, hpc]
      | putSentinel =>
          simp only [stepA, hpc] at hl
          split at hl
          case isFalse h' => simp at hl
          case isTrue hcap =>
          obtain rfl := Option.some.inj hl
          simp [pMeasure, wS1, hpc, wCh1]
          omega
      | stopped =>
          simp only [stepA, hpc] at hl
          simp at hl
  | b =>
      simp only [stepOf] at hl
      cases hpc : s.s2pc with
      | getItem =>
          simp only [stepB, hpc] at hl
          rcases hch1 : s.ch1 with _ | ⟨x, rest⟩
          · rw [hch1] at hl; simp at hl
          rcases x with _ | it <;> rw [hch1] at hl <;>
            simp only [Option.some.injEq] at hl <;> subst hl <;>
            simp [pMeasure, wS2, hpc, hch1, wCh1] <;> omega
      | putFeedback =>
          simp only [stepB, hpc] at hl
          rcases hsi : s.s2item with _ | it
          · rw [hsi] at hl; simp at hl
          simp only [hsi] at hl
          split at hl
          case isFalse h' => simp at hl
          case isTrue hcap =>
          obtain rfl := Option.some.inj hl
          simp [pMeasure, wS2, hpc]
          omega
      | putItem2 =>
          simp only [stepB, hpc] at hl
          rcases hsi : s.s2item with _ | it
          · rw [hsi] at hl; simp at hl
          simp only [hsi] at hl
          split at hl
          case isFalse h' => simp at hl
          case isTrue hcap =>
          obtain rfl := Option.some.inj hl
          simp [pMeasure, wS2, hpc, wCh2]
          omega
      | setDone =>
          simp only [stepB, hpc] at hl
          obtain rfl := Option.some.inj hl
          simp [pMeasure, wS2, hpc]
      | putSentinel =>
          simp only [stepB, hpc] at hl
          split at hl
          case isFalse h' => simp at hl
          case isTrue hcap =>
          obtain rfl := Option.some.inj hl
          simp [pMeasure, wS2, hpc, wCh2]
      | stopped =>
          simp only [stepB, hpc] at hl
          simp at hl
  | c =>
      simp only [stepOf] at hl
      cases hpc : s.s3pc with
      | getItem =>
          simp only [stepC, hpc] at hl
          rcases hch2 : s.ch2 with _ | ⟨x, rest⟩
          · rw [hch2] at hl; simp at hl
          rcases x with _ | it <;> rw [hch2] at hl <;>
            simp only [Option.some.injEq] at hl <;> subst hl <;>
            simp [pMeasure, wS3, hpc, hch2, wCh2]
      | stopped =>
          simp only [stepC, hpc] at hl
          simp at hl

lemma final_results {n cap : Nat} {s : PState} (hr : Reachable n cap s)
    (hstop : allStopped s) :
    s.s1_log.length = n ∧ s.results = s.s1_log.map itemB := by
  have inv := inv_reachable hr
  obtain ⟨h1, h2, h3⟩ := hstop
  have htk := inv.htaken (by rw [h2]; rfl)
  have hlen_n : s.s1_log.length = n := by
    rw [inv.hlen]
    exact inv.hdone_pc (Or.inr (Or.inr h1))
  have hfwd : fwdSent s.s2pc s.processed = s.s1_log.length := by
    rw [h2]
    simpa [fwdSent] using htk.1
  have hrlen : s.results.length = s.s1_log.length := by
    rw [(inv.hc_stop h3).2, hfwd]
  refine ⟨hlen_n, ?_⟩
  conv_lhs => rw [inv.hres]
  rw [hrlen, List.take_length]

lemma progress_n0 {cap : Nat} {s : PState} (hcap : 1 ≤ cap)
    (hr : Reachable 0 cap s) (hstuck : stuck 0 cap s) : allStopped s := by
  have inv := inv_reachable hr
  obtain ⟨hA, hB, hC⟩ := hstuck
  have hlog0 : s.s1_log = [] := by
    refine List.eq_nil_of_length_eq_zero ?_
    have := inv.hlen
    have := inv.hi_le
    omega
  have hp0 : s.processed = 0 := by
    have := inv.hproc_le
    rw [hlog0] at this
    simpa using this
  have hno_item : s.s1item = none := by
    rcases hsi : s.s1item with _ | it
    · rfl
    · have := (inv.hitem it hsi).2.2.2.1
      omega
  have h1 : s.s1pc = .stopped := by
    cases hpc : s.s1pc
    case loopHead => simp [stepA, hpc] at hA
    case drainCheck =>
        simp only [stepA, hpc] at hA
        split at hA <;> simp [chFree] at hA
    case drainGet =>
        have := inv.hitem_pc.mpr (Or.inr (Or.inl hpc))
        rw [hno_item] at this
        simp at this
    case putItem =>
        have := inv.hitem_pc.mpr (Or.inr (Or.inr hpc))
        rw [hno_item] at this
        simp at this
    case setDone => simp [stepA, hpc] at hA
    case putSentinel =>
        simp only [stepA, hpc] at hA
        split at hA
        case isTrue => simp [chFree] at hA
        case isFalse h' =>
            exfalso
            have hch1v : s.ch1 = [] := by
              rw [inv.hch1, hlog0, hpc]
              simp
            rw [hch1v] at h'
            simp [chFree] at h'
            omega
    case stopped => rfl
  have h2 : s.s2pc = .stopped := by
    cases hpc2 : s.s2pc
    case getItem =>
        exfalso
        have hch1v : s.ch1 = [none] := by
          rw [inv.hch1, hlog0, h1, hpc2]
          simp [bTookSentinel]
        simp only [stepB, hpc2] at hB
        rw [hch1v] at hB
        simp [chFree] at hB
    case putFeedback =>
        exfalso
        have hsome := inv.hs2item_pc.mpr (Or.inl hpc2)
        rw [Option.isSome_iff_exists] at hsome
        obtain ⟨it, hit⟩ := hsome
        have := (inv.hs2item it hit).2.2
        omega
    case putItem2 =>
        exfalso
        have hsome := inv.hs2item_pc.mpr (Or.inr hpc2)
        rw [Option.isSome_iff_exists] at hsome
        obtain ⟨it, hit⟩ := hsome
        have := (inv.hs2item it hit).2.2
        omega
    case setDone => simp [stepB, hpc2] at hB
    case putSentinel =>
        simp only [stepB, hpc2] at hB
        split at hB
        case isTrue => simp [chFree] at hB
        case isFalse h' =>
            exfalso
            have hch2v : s.ch2 = [] := by
              rw [inv.hch2, hlog0, hpc2]
              simp
            rw [hch2v] at h'
            simp [chFree] at h'
            omega
    case stopped => rfl
  have h3 : s.s3pc = .stopped := by
    cases hpc3 : s.s3pc
    case getItem =>
        exfalso
        have hch2v : s.ch2 = [none] := by
          rw [inv.hch2, hlog0, h2, hpc3]
          simp
        simp only [stepC, hpc3] at hC
        rw [hch2v] at hC
        simp [chFree] at hC
    case stopped => rfl
  exact ⟨h1, h2, h3⟩

lemma progress_n1 {s : PState} (hr : Reachable 1 1 s)
    (hstuck : stuck 1 1 s) : allStopped s := by
  have inv := inv_reachable hr
  obtain ⟨hA, hB, hC⟩ := hstuck
  have hlen_le : s.s1_log.length ≤ 1 := by
    have := inv.hlen
    have := inv.hi_le
    omega
  have hproc_le1 : s.processed ≤ 1 := le_trans inv.hproc_le hlen_le
  have h1 : s.s1pc = .stopped := by
    cases hpc : s.s1pc
    case loopHead =>
        simp only [stepA, hpc] at hA
        split at hA <;> simp [chFree] at hA
    case drainCheck =>
        simp only [stepA, hpc] at hA
        split at hA <;> simp [chFree] at hA
    case drainGet =>
        exfalso
        have hfb := inv.hdrain hpc
        have hsome := inv.hitem_pc.mpr (Or.inr (Or.inl hpc))
        rw [Option.isSome_iff_exists] at hsome
        obtain ⟨it, hit⟩ := hsome
        rcases hfbch : s.fbch with _ | ⟨fb, rest⟩
        · exact hfb hfbch
        · simp only [stepA, hpc] at hA
          rw [hfbch, hit] at hA
          simp [chFree] at hA
    case putItem =>
        exfalso
        have hsome := inv.hitem_pc.mpr (Or.inr (Or.inr hpc))
        rw [Option.isSome_iff_exists] at hsome
        obtain ⟨it, hit⟩ := hsome
        have hi0 : s.s1i = 0 := by
          have := (inv.hitem it hit).2.2.2.1
          omega
        have hlog0 : s.s1_log = [] := by
          refine List.eq_nil_of_length_eq_zero ?_
          rw [inv.hlen, hi0]
        have hch1v : s.ch1 = [] := by
          rw [inv.hch1, hlog0, hpc]
          simp
        simp only [stepA, hpc] at hA
        rw [hit, hch1v] at hA
        simp [chFree] at hA
    case setDone => simp [stepA, hpc] at hA
    case putSentinel =>
        exfalso
        simp only [stepA, hpc] at hA
        split at hA
        case isTrue => simp [chFree] at hA
        case isFalse hfull =>
        -- channel 1 is full, so it still holds the single produced item,
        -- hence Stage 2 has consumed nothing and must be able to dequeue
        have hi1 : s.s1i = 1 := inv.hdone_pc (Or.inr (Or.inl hpc))
        have hlen1 : s.s1_log.length = 1 := by rw [inv.hlen, hi1]
        have hp0 : s.processed = 0 := by
          by_contra hp
          have hp1 : s.processed = 1 := by omega
          have hch1v : s.ch1 = [] := by
            rw [inv.hch1, hpc]
            simp [List.drop_eq_nil_of_le, hlen1, hp1]
          rw [hch1v] at hfull
          simp [chFree] at hfull
        have hbt : bTookSentinel s.s2pc = false := by
          rcases hb : bTookSentinel s.s2pc
          · rfl
          · have := (inv.htaken hb).1
            omega
        have hs2g : s.s2pc = .getItem := by
          cases hpc2 : s.s2pc
          case getItem => rfl
          case putFeedback =>
              exfalso
              have hsome := inv.hs2item_pc.mpr (by rw [hpc2]; simp)
              rw [Option.isSome_iff_exists] at hsome
              obtain ⟨it, hit⟩ := hsome
              have := (inv.hs2item it hit).2.2
              omega
          case putItem2 =>
              exfalso
              have hsome := inv.hs2item_pc.mpr (by rw [hpc2]; simp)
              rw [Option.isSome_iff_exists] at hsome
              obtain ⟨it, hit⟩ := hsome
              have := (inv.hs2item it hit).2.2
              omega
          case setDone =>
              exfalso; rw [hpc2] at hbt; simp [bTookSentinel] at hbt
          case putSentinel =>
              exfalso; rw [hpc2] at hbt; simp [bTookSentinel] at hbt
          case stopped =>
              exfalso; rw [hpc2] at hbt; simp [bTookSentinel] at hbt
        have hch1v : s.ch1 = (s.s1_log.drop 0).map some := by
          rw [inv.hch1, hpc, hp0]
          simp
        rcases hlog : s.s1_log with _ | ⟨it0, rest⟩
        · rw [hlog] at hlen1; simp at hlen1
        rw [hlog] at hch1v
        simp only [List.drop_zero, List.map_cons] at hch1v
        simp only [stepB, hs2g] at hB
        rw [hch1v] at hB
        simp [chFree] at hB
    case stopped => rfl
  have h2 : s.s2pc = .stopped := by
    cases hpc2 : s.s2pc
    case getItem =>
        exfalso
        have hch1v : s.ch1 = (s.s1_log.drop s.processed).map some ++ [none] := by
          rw [inv.hch1, h1, hpc2]
          simp [bTookSentinel]
        simp only [stepB, hpc2] at hB
        rcases hd : (s.s1_log.drop s.processed).map some with _ | ⟨x, rest⟩
        · rw [hd] at hch1v
          rw [hch1v] at hB
          simp [chFree] at hB
        · rw [hd] at hch1v
          rw [hch1v] at hB
          rcases x with _ | it <;> simp [chFree] at hB
    case putFeedback =>
        exfalso
        have hsome := inv.hs2item_pc.mpr (Or.inl hpc2)
        rw [Option.isSome_iff_exists] at hsome
        obtain ⟨it, hit⟩ := hsome
        have hp1 : 1 ≤ s.processed := (inv.hs2item it hit).2.2
        have hpeq : s.processed = 1 := by omega
        have hfbe : s.fbch = [] := by
          rw [inv.hfbch, inv.hfb_log, hpc2]
          simp [fbSent, hpeq]
        simp only [stepB, hpc2] at hB
        rw [hit, hfbe] at hB
        simp [chFree] at hB
    case putItem2 =>
        exfalso
        have hsome := inv.hs2item_pc.mpr (Or.inr hpc2)
        rw [Option.isSome_iff_exists] at hsome
        obtain ⟨it, hit⟩ := hsome
        have hp1 : 1 ≤ s.processed := (inv.hs2item it hit).2.2
        have hpeq : s.processed = 1 := by omega
        have hch2v : s.ch2 = [] := by
          rw [inv.hch2, hpc2]
          simp [fwdSent, hpeq]
        simp only [stepB, hpc2] at hB
        rw [hit, hch2v] at hB
        simp [chFree] at hB
    case setDone => simp [stepB, hpc2] at hB
    case putSentinel =>
        exfalso
        simp only [stepB, hpc2] at hB
        split at hB
        case isTrue => simp [chFree] at hB
        case isFalse hfull =>
        -- channel 2 is full, so Stage 3 can dequeue
        rcases hch2 : s.ch2 with _ | ⟨x, rest⟩
        · rw [hch2] at hfull; simp [chFree] at hfull
        have hs3g : s.s3pc = .getItem := by
          cases hpc3 : s.s3pc
          case getItem => rfl
          case stopped =>
              exfalso
              have := (inv.hc_stop hpc3).1
              rw [hpc2] at this
              simp at this
        simp only [stepC, hs3g] at hC
        rw [hch2] at hC
        rcases x with _ | it <;> simp [chFree] at hC
    case stopped => rfl
  have h3 : s.s3pc = .stopped := by
    cases hpc3 : s.s3pc
    case getItem =>
        exfalso
        have hch2v : s.ch2 =
            ((s.s1_log.take (fwdSent s.s2pc s.processed)).drop
              s.results.length).map (fun x => some (itemB x)) ++ [none] := by
          rw [inv.hch2, h2, hpc3]
          simp
        simp only [stepC, hpc3] at hC
        rcases hd : ((s.s1_log.take (fwdSent s.s2pc s.processed)).drop
            s.results.length).map (fun x => some (itemB x)) with _ | ⟨x, rest⟩
        · rw [hd] at hch2v
          rw [hch2v] at hC
          simp [chFree] at hC
        · rw [hd] at hch2v
          rw [hch2v] at hC
          rcases hx : x with _ | it
          · rw [hx] at hC; simp [chFree] at hC
          · rw [hx] at hC; simp [chFree] at hC
    case stopped => rfl
  exact ⟨h1, h2, h3⟩

lemma dl2_run : runLabels 2 1 dl2Labs init = some dl2State := rfl

lemma dl3_run : runLabels 3 1 dl3Labs init = some dl3State := rfl

lemma w1_run : runLabels 1 1 w1Labs init = some w1State := rfl

lemma w0_run : runLabels 0 1 w0Labs init = some w0State := rfl

lemma w6_run : runLabels 2 2 w6Labs init = some w6State := rfl

lemma w4_run : runLabels 2 2 w4Labs init = some w4State := rfl

lemma c7_run : runLabels 1 1 c7Labs init = some c7State := rfl

/-- C1: the claim states that for every count ≥ 0 and every positive channel
capacity, `run_pipeline(count, cap)` terminates and returns the `count` items.
The code refutes it: for count = 2, capacity = 1 there is a reachable state
(after the schedule `dl2Labs`) in which no stage can take a step, yet the
stages have not all stopped — Stage 2 is blocked forever on the full feedback
channel after Stage 1 has stopped, so the pipeline hangs instead of
returning. -/
theorem claim1_deadlock :
    Reachable 2 1 dl2State ∧ stuck 2 1 dl2State ∧ ¬ allStopped dl2State :=
  ⟨reachable_of_run dl2Labs dl2_run, by decide, by decide⟩

/-- C3: the claim states that Stage B creates one FeedbackRecord per consumed
WorkItem, so the total ever produced equals count. The code refutes the
total: for count = 3, capacity = 1 there is a reachable deadlocked state in
which Stage 2 has consumed 2 items but only 1 feedback record was ever
enqueued, and no stage can ever run again, so the total stays 1 ≠ 3. -/
theorem claim3_deadlock :
    Reachable 3 1 dl3State ∧ stuck 3 1 dl3State ∧ ¬ allStopped dl3State ∧
    dl3State.processed = 2 ∧ dl3State.fb_log.length = 1 :=
  ⟨reachable_of_run dl3Labs dl3_run, by decide, by decide, rfl, rfl⟩

/-- Auxiliary: in every reachable state, the k-th feedback record ever
enqueued (0-indexed) reports the k-th consumed item, whose id is k, with
metric k+1; and in every state in which all three stages stopped, the total
number of records ever enqueued equals count. -/
theorem fb_records_canonical {n cap : Nat} {s : PState}
    (hr : Reachable n cap s) :
    s.fb_log = (List.range (fbSent s.s2pc s.processed)).map mkFb ∧
    (allStopped s → s.fb_log.length = n) := by
  have inv := inv_reachable hr
  refine ⟨inv.hfb_log, ?_⟩
  intro hstop
  have htk := inv.htaken (by rw [hstop.2.1]; rfl)
  have hlen_n := (final_results hr hstop).1
  rw [inv.hfb_log, hstop.2.1]
  simp [fbSent]
  omega

/-- C2: every WorkItem that enters channel 2 (hence every item of the result)
has processed = true and value = 2 * (id * 10) + 1. -/
theorem claim2_ch2_items {n cap : Nat} {s : PState} (hr : Reachable n cap s) :
    ∀ it : WorkItem, (some it ∈ s.ch2_log ∨ it ∈ s.results) →
      it.processed = some true ∧ it.value = 2 * (it.id * 10) + 1 := by
  have inv := inv_reachable hr
  intro it hmem
  have hex : ∃ it0 ∈ s.s1_log, it = itemB it0 := by
    rcases hmem with hm | hm
    · rw [inv.hch2_log] at hm
      simp only [List.mem_append] at hm
      rcases hm with hm | hm
      · rw [List.mem_map] at hm
        obtain ⟨it0, h0, heq⟩ := hm
        exact ⟨it0, List.mem_of_mem_take h0, (Option.some.inj heq).symm⟩
      · split at hm <;> simp at hm
    · rw [inv.hres] at hm
      rw [List.mem_map] at hm
      obtain ⟨it0, h0, heq⟩ := hm
      exact ⟨it0, List.mem_of_mem_take h0, heq.symm⟩
  obtain ⟨it0, h0, rfl⟩ := hex
  obtain ⟨hval, _, _⟩ := inv.hlog it0 h0
  refine ⟨rfl, ?_⟩
  show it0.value * 2 + 1 = 2 * (it0.id * 10) + 1
  rw [hval]
  ring

/-- C2 witness: the single item of the completed count = 1 run. -/
theorem claim2_witness :
    (⟨0, 1, [], some true⟩ : WorkItem).processed = some true ∧
    (⟨0, 1, [], some true⟩ : WorkItem).value =
      2 * ((⟨0, 1, [], some true⟩ : WorkItem).id * 10) + 1 :=
  claim2_ch2_items (reachable_of_run w1Labs w1_run) ⟨0, 1, [], some true⟩
    (Or.inr (by decide))

/-- C4: Stage A's feedback drain never blocks — the dequeue inside the drain
loop is only ever executed when the feedback channel is non-empty, and at the
drain's check point Stage A always has an enabled step. -/
theorem claim4_drain_nonblocking {n cap : Nat} {s : PState}
    (hr : Reachable n cap s) :
    (s.s1pc = .drainGet → s.fbch ≠ []) ∧
    (s.s1pc = .drainCheck → (stepA n cap s).isSome = true) := by
  have inv := inv_reachable hr
  refine ⟨inv.hdrain, ?_⟩
  intro hpc
  simp only [stepA, hpc]
  split <;> simp

/-- C4 witness: a reachable state at the feedback dequeue with a pending
record. -/
theorem claim4_witness : w4State.fbch ≠ [] :=
  (claim4_drain_nonblocking (reachable_of_run w4Labs w4_run)).1 rfl

/-- C5: for count = 0 every interleaving of the pipeline can only halt with
all three stages stopped, an empty result, and the terminal marker as the
sole element ever enqueued on each of the two forward channels; moreover
every step decreases a global measure, so every run does halt. -/
theorem claim5_count_zero {cap : Nat} {s : PState} (hcap : 1 ≤ cap)
    (hr : Reachable 0 cap s) :
    (∀ t, Step 0 cap s t → pMeasure 0 t < pMeasure 0 s) ∧
    (stuck 0 cap s →
      allStopped s ∧ s.results = [] ∧ s.ch1_log = [none] ∧
        s.ch2_log = [none]) := by
  have inv := inv_reachable hr
  refine ⟨fun t hstep => pMeasure_step inv hstep, ?_⟩
  intro hstuck
  have hstop := progress_n0 hcap hr hstuck
  obtain ⟨hlen0, hres⟩ := final_results hr hstop
  have hlog0 : s.s1_log = [] := List.eq_nil_of_length_eq_zero hlen0
  refine ⟨hstop, ?_, ?_, ?_⟩
  · rw [hres, hlog0]; rfl
  · rw [inv.hch1_log, hlog0, hstop.1]; simp
  · rw [inv.hch2_log, hlog0, hstop.2.1]; simp

/-- C5 witness: a complete count = 0 run. -/
theorem claim5_witness :
    allStopped w0State ∧ w0State.results = [] ∧ w0State.ch1_log = [none] ∧
      w0State.ch2_log = [none] :=
  (claim5_count_zero (by decide) (reachable_of_run w0Labs w0_run)).2 (by decide)

/-- C6: in every reachable state, every FeedbackRecord in any WorkItem's
adjustments (whether the item is under construction, already produced, or
collected in the results) reports an item with a strictly smaller id. -/
theorem claim6_feedback_older {n cap : Nat} {s : PState}
    (hr : Reachable n cap s) :
    ∀ it : WorkItem,
      (s.s1item = some it ∨ it ∈ s.s1_log ∨ it ∈ s.results) →
      ∀ fb ∈ it.adjustments, fb.from_item < it.id := by
  have inv := inv_reachable hr
  intro it hmem fb hfb
  rcases hmem with hm | hm | hm
  · exact (inv.hitem it hm).2.2.2.2 fb hfb
  · exact (inv.hlog it hm).2.2 fb hfb
  · rw [inv.hres] at hm
    rw [List.mem_map] at hm
    obtain ⟨it0, h0, heq⟩ := hm
    subst heq
    have hmem0 := List.mem_of_mem_take h0
    have := (inv.hlog it0 hmem0).2.2 fb (by simpa [itemB] using hfb)
    simpa [itemB] using this

/-- C6 witness: item 1 of a count = 2 run carries feedback about item 0. -/
theorem claim6_witness :
    (⟨0, "increase_rate", 1⟩ : FeedbackRecord).from_item <
      (⟨1, 10, [⟨0, "increase_rate", 1⟩], none⟩ : WorkItem).id :=
  claim6_feedback_older (reachable_of_run w6Labs w6_run)
    ⟨1, 10, [⟨0, "increase_rate", 1⟩], none⟩ (Or.inl (by decide))
    ⟨0, "increase_rate", 1⟩ (by decide)

/-- C7 counterexample: the claim's shape is false as stated — the dict Stage 1
builds has no `processed` key (stages.py line 15 creates only id, value,
adjustments); the key only appears when Stage 2 assigns it. -/
theorem claim7_counterexample : ¬ claim7Statement := by
  intro h
  have := h 1 1 c7State (reachable_of_run c7Labs c7_run) ⟨0, 0, [], none⟩
    (Or.inl (by decide))
  simp at this

/-- C7 (amended): items created by Stage A have shape {id, value = id * 10,
adjustments} with no `processed` key; every result item is Stage B's
transform of a produced item; and the transform changes only `value` and
`processed`, leaving `id` and `adjustments` untouched. -/
theorem claim7_amended_shape {n cap : Nat} {s : PState}
    (hr : Reachable n cap s) :
    (∀ it : WorkItem, (s.s1item = some it ∨ it ∈ s.s1_log) →
      it.processed = none ∧ it.value = it.id * 10) ∧
    (∀ x ∈ s.results, ∃ it0 ∈ s.s1_log, x = itemB it0) ∧
    (∀ it : WorkItem, (itemB it).id = it.id ∧
      (itemB it).adjustments = it.adjustments ∧
      (itemB it).processed = some true) := by
  have inv := inv_reachable hr
  refine ⟨?_, ?_, fun it => ⟨rfl, rfl, rfl⟩⟩
  · intro it hm
    rcases hm with hm | hm
    · obtain ⟨hid, hval, hproc, _, _⟩ := inv.hitem it hm
      exact ⟨hproc, by rw [hval, hid]⟩
    · obtain ⟨hval, hproc, _⟩ := inv.hlog it hm
      exact ⟨hproc, hval⟩
  · intro x hx
    rw [inv.hres] at hx
    rw [List.mem_map] at hx
    obtain ⟨it0, h0, heq⟩ := hx
    exact ⟨it0, List.mem_of_mem_take h0, heq.symm⟩

/-- C7 amended witness: the item produced in the count = 1 run. -/
theorem claim7_witness :
    (⟨0, 0, [], none⟩ : WorkItem).processed = none ∧
    (⟨0, 0, [], none⟩ : WorkItem).value = (⟨0, 0, [], none⟩ : WorkItem).id * 10 :=
  (claim7_amended_shape (reachable_of_run w1Labs w1_run)).1 ⟨0, 0, [], none⟩
    (Or.inr (by decide))

/-- C8: an item is forwarded on channel 2 only after its own feedback record
has been enqueued: every item ever enqueued on channel 2 already has a record
with its id in the feedback log. -/
theorem claim8_feedback_before_forward {n cap : Nat} {s : PState}
    (hr : Reachable n cap s) :
    ∀ it : WorkItem, some it ∈ s.ch2_log →
      ∃ fb ∈ s.fb_log, fb.from_item = it.id := by
  have inv := inv_reachable hr
  intro it hm
  rw [inv.hch2_log] at hm
  simp only [List.mem_append] at hm
  rcases hm with hm | hm
  · rw [List.mem_map] at hm
    obtain ⟨it0, h0, heq⟩ := hm
    obtain rfl : it = itemB it0 := (Option.some.inj heq).symm
    rw [List.mem_iff_getElem] at h0
    obtain ⟨k, hk, hget⟩ := h0
    have hkF : k < fwdSent s.s2pc s.processed :=
      lt_of_lt_of_le hk (by rw [List.length_take]; exact min_le_left _ _)
    have hkl : k < s.s1_log.length :=
      lt_of_lt_of_le hk (by rw [List.length_take]; exact min_le_right _ _)
    have hid : it0.id = k := by
      rw [← hget, List.getElem_take s.s1_log]
      have := inv.hids k hkl
      simpa [List.get_eq_getElem] using this
    refine ⟨mkFb k, ?_, ?_⟩
    · rw [inv.hfb_log, List.mem_map]
      refine ⟨k, ?_, rfl⟩
      rw [List.mem_range]
      exact lt_of_lt_of_le hkF (fwdSent_le_fbSent _ _)
    · show (mkFb k).from_item = (itemB it0).id
      simp [mkFb, itemB, hid]
  · split at hm <;> simp at hm

/-- C8 witness: item 0 in the completed count = 1 run. -/
theorem claim8_witness :
    ∃ fb ∈ w1State.fb_log, fb.from_item = (⟨0, 1, [], some true⟩ : WorkItem).id :=
  claim8_feedback_before_forward (reachable_of_run w1Labs w1_run)
    ⟨0, 1, [], some true⟩ (by decide)

/-- C9: for count = 1, capacity = 1 every run of the pipeline halts (a global
measure decreases on every step) and can only halt with all stages stopped
and result exactly [{id 0, value 1, adjustments [], processed true}] — the
single item's adjustments are empty in every interleaving. -/
theorem claim9_count_one {s : PState} (hr : Reachable 1 1 s) :
    (∀ t, Step 1 1 s t → pMeasure 1 t < pMeasure 1 s) ∧
    (stuck 1 1 s →
      allStopped s ∧ s.results = [⟨0, 1, [], some true⟩]) := by
  have inv := inv_reachable hr
  refine ⟨fun t hstep => pMeasure_step inv hstep, ?_⟩
  intro hstuck
  have hstop := progress_n1 hr hstuck
  obtain ⟨hlen1, hres⟩ := final_results hr hstop
  refine ⟨hstop, ?_⟩
  rcases hlog : s.s1_log with _ | ⟨it0, rest⟩
  · rw [hlog] at hlen1; simp at hlen1
  have hrest : rest = [] := by
    have h := hlen1
    rw [hlog] at h
    simpa using h
  subst hrest
  have hmem : it0 ∈ s.s1_log := by rw [hlog]; exact List.mem_singleton.mpr rfl
  have h0lt : 0 < s.s1_log.length := by rw [hlog]; simp
  have hget0 : s.s1_log[0] = it0 := by
    rw [List.getElem_of_eq hlog h0lt]
    rfl
  have hid : it0.id = 0 := by
    have h := inv.hids 0 h0lt
    rw [List.get_eq_getElem, hget0] at h
    exact h
  obtain ⟨hval, hproc, hadj⟩ := inv.hlog it0 hmem
  have hadje : it0.adjustments = [] := by
    rw [List.eq_nil_iff_forall_not_mem]
    intro fb hfb
    have := hadj fb hfb
    rw [hid] at this
    omega
  have hit0 : it0 = ⟨0, 0, [], none⟩ := by
    cases it0 with
    | mk i v adj p =>
        subst hid hproc hadje
        simp at hval
        subst hval
        rfl
  rw [hres, hlog, hit0]
  rfl

/-- C9 witness: a concrete complete interleaving for count = 1, capacity = 1. -/
theorem claim9_witness :
    allStopped w1State ∧ w1State.results = [⟨0, 1, [], some true⟩] :=
  (claim9_count_one (reachable_of_run w1Labs w1_run)).2 (by decide)

/-- C10: in every reachable state, Stage 1's feedback_count equals the sum of
the lengths of the adjustments of all items it has constructed so far
(including the one under construction), and also equals the number of
records ever enqueued on the feedback channel minus those still pending. -/
theorem claim10_feedback_count {n cap : Nat} {s : PState}
    (hr : Reachable n cap s) :
    s.feedback_count =
      (s.s1_log.map fun it => it.adjustments.length).sum +
        itemAdjLen s.s1item ∧
    s.feedback_count + s.fbch.length = s.fb_log.length := by
  have inv := inv_reachable hr
  refine ⟨inv.hfc_sum, ?_⟩
  rw [inv.hfbch, List.length_drop]
  have := inv.hfc_le
  omega

/-- C10 witness: a reachable state with one drained record. -/
theorem claim10_witness :
    w6State.feedback_count =
      (w6State.s1_log.map fun it => it.adjustments.length).sum +
        itemAdjLen w6State.s1item ∧
    w6State.feedback_count + w6State.fbch.length = w6State.fb_log.length :=
  claim10_feedback_count (reachable_of_run w6Labs w6_run)
